import Mathlib

/-!
Verification of the adaptive-learning core of the AskTheSage repository.

The definitions below are a shallow embedding of the Python sources:
- `src/src/adaptive_learning/selector.py` (`UniversalQuestionSelector`)
- `src/src/adaptive_learning/service.py` (`AdaptiveQuizService`)

Modelling conventions:
- Python `datetime` values are modelled as integers counting seconds
  (`timedelta.days` is floor division by 86400, i.e. `Int.fdiv`).
- Python `float` scores are modelled as exact rationals; the float
  literals used by the code (0.6, 0.25, 0.15, 0.5, 0.8, 1.0, 1.2) only
  enter products whose exact values are far from integer boundaries at
  any realistic quiz length, so exact rational arithmetic agrees with
  IEEE evaluation there.
- The seeded RNG shuffle (`random.Random.shuffle`) is modelled by an
  explicit function parameter; theorems assume only that it permutes
  its input, and witnesses instantiate it with the identity.
- SQLAlchemy rows are modelled as structures, the session/transaction
  as an explicit pending/committed pair of database states.
-/

/-- Embedding of `SelectionReason` (selector.py lines 9-13): the enum of
reasons a question can be selected for. -/
inductive SelectionReason where
  | weakness
  | srs_due
  | new_question
  | random_review
deriving DecidableEq

/-- Embedding of the `QuestionScore` dataclass (selector.py lines 15-20).
The `metadata` dict is diagnostic-only in the source and carries no
behaviour, so it is not modelled. -/
structure QuestionScore where
  question_id : ℕ
  score : ℚ
  reason : SelectionReason
deriving DecidableEq

/-- Embedding of the `UserPerformance` dataclass (selector.py lines 22-30).
The `difficulty_score` field is absent from the dataclass in
selector.py but is constructed by service.py (line 66) and consumed by
the skill estimator; it is carried here as an optional extra field and
ignored by every function embedded from selector.py. -/
structure UserPerformance where
  question_id : ℕ
  correct_streak : ℤ
  last_attempt_correct : Bool
  last_attempt_date : ℤ
  total_attempts : ℤ
  total_correct : ℤ
  next_review_date : Option ℤ := none
  difficulty_score : Option ℚ := none
deriving DecidableEq

/-- Embedding of the selector configuration dictionary
(selector.py lines 40-57). -/
structure Config where
  weakness_weight : ℚ
  new_question_weight : ℚ
  srs_due_weight : ℚ
  srs_overdue_bonus : ℚ
  random_review_weight : ℚ
  target_weakness_pct : ℚ
  target_new_pct : ℚ
  target_srs_pct : ℚ
  srs_intervals : List ℕ
deriving DecidableEq

/-- The default configuration values of `UniversalQuestionSelector.__init__`
(selector.py lines 40-57). -/
def defaultConfig : Config :=
  { weakness_weight := 100
    new_question_weight := 50
    srs_due_weight := 30
    srs_overdue_bonus := 20
    random_review_weight := 5
    target_weakness_pct := 6/10
    target_new_pct := 25/100
    target_srs_pct := 15/100
    srs_intervals := [1, 3, 7, 14, 30, 60, 120, 240, 480] }

/-- Python `int()` applied to a (here: exact rational) float: truncation
toward zero. -/
def pyInt (q : ℚ) : ℤ := if q < 0 then ⌈q⌉ else ⌊q⌋

/-- Python `timedelta.days`: floor division of the total seconds by 86400. -/
def timedeltaDays (seconds : ℤ) : ℤ := Int.fdiv seconds 86400

/-- Embedding of `UniversalQuestionSelector._calculate_recency_factor`
(selector.py lines 253-269). -/
def calculate_recency_factor (now last_attempt_date : ℤ) : ℚ :=
  let days_since := timedeltaDays (now - last_attempt_date)
  if days_since < 1 then 1/2
  else if days_since < 7 then 8/10
  else if days_since < 30 then 1
  else 12/10

/-- Embedding of `UniversalQuestionSelector._score_question`
(selector.py lines 101-172): scores one question from the user's
performance record (or lack thereof). -/
def score_question (cfg : Config) (now : ℤ) (question_id : ℕ)
    (performance : Option UserPerformance) : QuestionScore :=
  match performance with
  | none =>
      { question_id := question_id
        score := cfg.new_question_weight
        reason := .new_question }
  | some p =>
      if p.last_attempt_correct = false then
        let total_attempts := max p.total_attempts 1
        let total_correct₀ := max 0 p.total_correct
        let total_correct := if total_correct₀ > total_attempts then 0 else total_correct₀
        let error_rate : ℚ := 1 - (total_correct : ℚ) / (total_attempts : ℚ)
        { question_id := question_id
          score := cfg.weakness_weight + error_rate * 20
          reason := .weakness }
      else
        match p.next_review_date with
        | some next_review_date =>
            let days_until_due := timedeltaDays (next_review_date - now)
            if days_until_due ≤ 0 then
              { question_id := question_id
                score := cfg.srs_due_weight +
                  min ((|days_until_due| * 2 : ℤ) : ℚ) cfg.srs_overdue_bonus
                reason := .srs_due }
            else
              { question_id := question_id
                score := cfg.random_review_weight * calculate_recency_factor now p.last_attempt_date
                reason := .random_review }
        | none =>
            { question_id := question_id
              score := cfg.random_review_weight * calculate_recency_factor now p.last_attempt_date
              reason := .random_review }

/-- The descending-score order used by the selector's
`sorted(..., key=lambda x: x.score, reverse=True)` calls. -/
def scoreGe (a b : QuestionScore) : Prop := b.score ≤ a.score

instance : DecidableRel scoreGe := fun a b => inferInstanceAs (Decidable (b.score ≤ a.score))

instance : IsTotal QuestionScore scoreGe := ⟨fun a b => le_total b.score a.score⟩

instance : IsTrans QuestionScore scoreGe := ⟨fun _ _ _ h₁ h₂ => le_trans h₂ h₁⟩

/-- Stable descending sort by score, the meaning of Python's stable
`sorted(..., key=lambda x: x.score, reverse=True)`. -/
def sortByScoreDesc (l : List QuestionScore) : List QuestionScore :=
  l.insertionSort scoreGe

/-- The per-reason score-sorted pools built at the top of
`_apply_distribution_control` (selector.py lines 184-189). -/
def questionPool (scored : List QuestionScore) (r : SelectionReason) : List QuestionScore :=
  sortByScoreDesc (scored.filter fun q => decide (q.reason = r))

/-- The integer quota of a percentage target:
`int(quiz_length * pct)` (selector.py lines 192-196). -/
def targetCount (pct : ℚ) (quiz_length : ℕ) : ℤ := pyInt ((quiz_length : ℚ) * pct)

/-- The remainder quota for `RANDOM_REVIEW`:
`quiz_length - sum(target_counts.values())` (selector.py line 197). -/
def targetCountRandom (cfg : Config) (quiz_length : ℕ) : ℤ :=
  (quiz_length : ℤ) -
    (targetCount cfg.target_weakness_pct quiz_length +
     targetCount cfg.target_new_pct quiz_length +
     targetCount cfg.target_srs_pct quiz_length)

/-- Embedding of the primary quota loop body of
`_apply_distribution_control` (selector.py lines 203-210): walk one
pool, appending each not-yet-selected question while the category count
is below its target. -/
def fillFromPool (target : ℤ) :
    List QuestionScore → ℤ → List ℕ → List QuestionScore → List ℕ × List QuestionScore
  | [], _, ids, sel => (ids, sel)
  | q :: rest, count, ids, sel =>
      if count < target ∧ q.question_id ∉ ids then
        fillFromPool target rest (count + 1) (q.question_id :: ids) (sel ++ [q])
      else
        fillFromPool target rest count ids sel

/-- Embedding of the fallback loop of `_apply_distribution_control`
(selector.py lines 225-230): append questions from the sorted fallback
pool while the selection is shorter than the quiz length. -/
def fillRemaining (quiz_length : ℕ) (sel : List QuestionScore) :
    List QuestionScore → List QuestionScore
  | [] => sel
  | q :: rest =>
      if sel.length < quiz_length then fillRemaining quiz_length (sel ++ [q]) rest
      else sel

/-- Embedding of `UniversalQuestionSelector._apply_distribution_control`
(selector.py lines 174-241). The `shuffle` parameter stands for
`self.rng.shuffle`; the source's callers guarantee a positive integer
quiz length, embedded as `ℕ`. -/
def apply_distribution_control (cfg : Config)
    (shuffle : List QuestionScore → List QuestionScore)
    (scored_questions : List QuestionScore) (quiz_length : ℕ) : List QuestionScore :=
  let poolW := questionPool scored_questions .weakness
  let poolN := questionPool scored_questions .new_question
  let poolS := questionPool scored_questions .srs_due
  let poolR := questionPool scored_questions .random_review
  let s₁ := fillFromPool (targetCount cfg.target_weakness_pct quiz_length) poolW 0 [] []
  let s₂ := fillFromPool (targetCount cfg.target_new_pct quiz_length) poolN 0 s₁.1 s₁.2
  let s₃ := fillFromPool (targetCount cfg.target_srs_pct quiz_length) poolS 0 s₂.1 s₂.2
  let s₄ := fillFromPool (targetCountRandom cfg quiz_length) poolR 0 s₃.1 s₃.2
  let final :=
    if 0 < (quiz_length : ℤ) - s₄.2.length then
      let fallback_pool :=
        (poolW ++ poolN ++ poolS ++ poolR).filter fun q => decide (q.question_id ∉ s₄.1)
      fillRemaining quiz_length s₄.2 (sortByScoreDesc fallback_pool)
    else s₄.2
  (shuffle final).take quiz_length

/-- The last (i.e. most recently inserted, dict-overwrite semantics)
performance record for a question id:
`{p.question_id: p for p in user_performance}.get(question_id)`
(selector.py lines 85, 90). -/
def performanceLookup (user_performance : List UserPerformance) (question_id : ℕ) :
    Option UserPerformance :=
  (user_performance.filter fun p => decide (p.question_id = question_id)).getLast?

/-- Embedding of `UniversalQuestionSelector.select_questions`
(selector.py lines 62-99). `List.dedup` models `list(set(...))`
(an unspecified-order deduplication; only membership matters to the
claims proved below). The unused `user_id`/`course_id` parameters are
kept from the source signature. -/
def select_questions (cfg : Config)
    (shuffle : List QuestionScore → List QuestionScore) (now : ℤ)
    (user_id course_id : ℕ) (quiz_length : ℤ)
    (user_performance : List UserPerformance)
    (available_questions : List ℕ) : List QuestionScore :=
  if quiz_length ≤ 0 then []
  else if available_questions = [] then []
  else
    let available := available_questions.dedup
    let scored_questions :=
      available.map fun question_id =>
        score_question cfg now question_id (performanceLookup user_performance question_id)
    let sorted_questions := sortByScoreDesc scored_questions
    apply_distribution_control cfg shuffle sorted_questions quiz_length.toNat

/-- The interval-table lookup inside `calculate_next_review_date`
(selector.py lines 275-280): clamp the streak to be non-negative, then
index the interval table with the index clamped to its last entry. -/
def srsIntervalDays (cfg : Config) (correct_streak : ℤ) : ℕ :=
  if cfg.srs_intervals = [] then 1
  else cfg.srs_intervals.getD (min (max 0 correct_streak).toNat (cfg.srs_intervals.length - 1)) 0

/-- Embedding of `UniversalQuestionSelector.calculate_next_review_date`
(selector.py lines 271-281): `now + timedelta(days=interval_days)`,
in seconds. -/
def calculate_next_review_date (cfg : Config) (now correct_streak : ℤ) : ℤ :=
  now + 86400 * srsIntervalDays cfg correct_streak

/-- Modelled from the spec: normalization of a raw difficulty score used
by the skill estimator (spec section 4.1), which is absent from src:
`(d - min) / (max - min)`, clamped to [0,1]; if `min == max` the
normalized value is 0.5. -/
def normalizeDifficulty (d min_d max_d : ℚ) : ℚ :=
  if min_d = max_d then 1/2
  else min 1 (max 0 ((d - min_d) / (max_d - min_d)))

/-- The descending-recency order on performance records used by the
skill estimator's "10 most recent" selection. -/
def dateGe (a b : UserPerformance) : Prop := b.last_attempt_date ≤ a.last_attempt_date

instance : DecidableRel dateGe := fun a b =>
  inferInstanceAs (Decidable (b.last_attempt_date ≤ a.last_attempt_date))

instance : IsTotal UserPerformance dateGe :=
  ⟨fun a b => le_total b.last_attempt_date a.last_attempt_date⟩

instance : IsTrans UserPerformance dateGe := ⟨fun _ _ _ h₁ h₂ => le_trans h₂ h₁⟩

/-- The entries the skill estimator may learn from: last attempt correct
and a difficulty score present. -/
def qualifyingPerformance (user_performance : List UserPerformance) : List UserPerformance :=
  user_performance.filter fun p => p.last_attempt_correct && p.difficulty_score.isSome

/-- Modelled from the spec: `_estimate_user_skill_level`, called by
service.py line 39 but missing from src (only the earlier selector
iteration is present there). Spec section 4.1: no history → 0.25; no
qualifying entry → 0.1; otherwise the harmonic-decay weighted average,
with weight `1/(i+1)` for the i-th most recent of the 10 most recent
qualifying entries, of their normalized difficulties. -/
def estimate_user_skill_level (user_performance : List UserPerformance)
    (min_d max_d : ℚ) : ℚ :=
  if user_performance = [] then 1/4
  else
    let qualifying := qualifyingPerformance user_performance
    if qualifying = [] then 1/10
    else
      let recent := (qualifying.insertionSort dateGe).take 10
      let vals := recent.map fun p => normalizeDifficulty (p.difficulty_score.getD 0) min_d max_d
      let ws := (List.range vals.length).map fun (i : ℕ) => (1 : ℚ) / ((i : ℚ) + 1)
      (List.zipWith (fun v w => v * w) vals ws).sum / ws.sum

/-- Embedding of the `quiz_sessions.status` string column; the code only
ever stores these four values (spec section 4.6). -/
inductive SessionStatus where
  | in_progress
  | completed
  | incomplete
  | cancelled
deriving DecidableEq

/-- Embedding of a `QuizSession` row (models.py lines 116-125 plus the
`initial_user_skill_level` column written by service.py line 134). -/
structure QuizSessionRow where
  id : ℕ
  user_id : ℕ
  course_id : ℕ
  status : SessionStatus
  total_questions : ℤ
  final_score : Option ℚ := none
  completed_at : Option ℤ := none
  initial_user_skill_level : Option ℚ := none
deriving DecidableEq

/-- Embedding of a `QuizSessionQuestion` row (models.py lines 134-148),
restricted to the columns the embedded service functions read or write. -/
structure QuizSessionQuestionRow where
  session_id : ℕ
  question_id : ℕ
  order_number : ℕ
  is_answered : Bool := false
  is_correct : Option Bool := none
  is_reported : Bool := false
  selection_reason : SelectionReason
  selection_score : ℚ
deriving DecidableEq

/-- Embedding of a `UserAnswer` row (models.py lines 101-110). The
`correct_streak` column is declared non-nullable, but the code reads it
defensively (`... if latest_answer.correct_streak is not None else 0`),
so it is carried as an option. -/
structure UserAnswerRow where
  user_id : ℕ
  question_id : ℕ
  is_correct : Bool
  timestamp : ℤ
  correct_streak : Option ℤ
  next_review_date : Option ℤ
  time_taken : ℤ
deriving DecidableEq

/-- The database state visible to the embedded service operations:
the persistence collaborator of spec section 6. `next_session_id`
models the autoincrement primary key assigned on flush. -/
structure Db where
  users : List ℕ
  courses : List ℕ
  sessions : List QuizSessionRow
  session_questions : List QuizSessionQuestionRow
  next_session_id : ℕ
deriving DecidableEq

/-- Result of `AdaptiveQuizService.start_quiz` (service.py lines 115-151):
success with the new session id, the dedicated "Not enough questions in
the course to start a quiz." error (line 141), or the generic error of
the surrounding try/except. -/
inductive StartResult where
  | success (session_id : ℕ)
  | insufficient_questions
  | unexpected_error
deriving DecidableEq

/-- The walrus block of `start_quiz` (service.py lines 123-125): mark the
first `in_progress` session of the user `incomplete` and commit. When no
such session exists the state is unchanged. -/
def setFirstOngoingIncomplete (uid : ℕ) : List QuizSessionRow → List QuizSessionRow
  | [] => []
  | s :: rest =>
      if s.user_id = uid ∧ s.status = .in_progress then
        { s with status := .incomplete } :: rest
      else
        s :: setFirstOngoingIncomplete uid rest

/-- The roster bulk-insert of `_save_session_questions`
(service.py lines 153-163): one row per selected question with
`order_number = i + 1`. -/
def saveSessionQuestions (session_id : ℕ) (selected : List QuestionScore) :
    List QuizSessionQuestionRow :=
  selected.enum.map fun iq =>
    { session_id := session_id
      question_id := iq.2.question_id
      order_number := iq.1 + 1
      selection_reason := iq.2.reason
      selection_score := iq.2.score : QuizSessionQuestionRow }

/-- Embedding of `AdaptiveQuizService.start_quiz` (service.py lines
115-151). `get_adaptive` stands for the
`DatabaseQuestionSelector.get_adaptive_questions` collaborator (roster
and skill level). The returned `Db` is the committed state after the
operation: the new session row is added to the pending state and
flushed before the length check, and the `rollback()` on the
insufficient-roster branch discards it, leaving the state committed at
line 125. -/
def start_quiz (get_adaptive : ℕ → ℕ → ℤ → List QuestionScore × ℚ)
    (db : Db) (user_id course_id : ℕ) (quiz_length : ℤ) : Db × StartResult :=
  if quiz_length ≤ 0 then (db, .unexpected_error)
  else if ¬ (user_id ∈ db.users ∧ course_id ∈ db.courses) then (db, .unexpected_error)
  else
    let committed := { db with sessions := setFirstOngoingIncomplete user_id db.sessions }
    let res := get_adaptive user_id course_id quiz_length
    let selected := res.1
    let sid := committed.next_session_id
    let pending :=
      { committed with
          sessions := committed.sessions ++
            [({ id := sid, user_id := user_id, course_id := course_id,
                status := .in_progress, total_questions := quiz_length,
                initial_user_skill_level := some res.2 } : QuizSessionRow)]
          next_session_id := sid + 1 }
    if (selected.length : ℤ) < quiz_length then (committed, .insufficient_questions)
    else
      ({ pending with
          session_questions := pending.session_questions ++ saveSessionQuestions sid selected },
       .success sid)

/-- Result strings of `cancel_quiz_session` (service.py lines 246-266). -/
inductive CancelResult where
  | not_found
  | deleted
  | scored
deriving DecidableEq

/-- The `is_answered=True` roster count for a session
(service.py lines 251, 258). -/
def countAnswered (db : Db) (session_id : ℕ) : ℕ :=
  (db.session_questions.filter fun q =>
    decide (q.session_id = session_id) && q.is_answered).length

/-- The `is_correct=True` roster count for a session
(service.py line 257). -/
def countCorrect (db : Db) (session_id : ℕ) : ℕ :=
  (db.session_questions.filter fun q =>
    decide (q.session_id = session_id) && decide (q.is_correct = some true)).length

/-- Embedding of `AdaptiveQuizService.cancel_quiz_session`
(service.py lines 246-266): a session with no answered questions is
hard-deleted together with its roster; otherwise it is scored over the
answered questions and marked cancelled. -/
def cancel_quiz_session (now : ℤ) (db : Db) (session_id : ℕ) : Db × CancelResult :=
  match db.sessions.find? fun s => decide (s.id = session_id) with
  | none => (db, .not_found)
  | some _ =>
      if countAnswered db session_id = 0 then
        ({ db with
            sessions := db.sessions.filter fun s => !decide (s.id = session_id)
            session_questions :=
              db.session_questions.filter fun q => !decide (q.session_id = session_id) },
         .deleted)
      else
        let correct_answers := countCorrect db session_id
        let answered_count := countAnswered db session_id
        ({ db with
            sessions := db.sessions.map fun s =>
              if s.id = session_id then
                { s with
                    status := .cancelled
                    completed_at := some now
                    final_score :=
                      some (if 0 < answered_count then
                              (correct_answers : ℚ) / (answered_count : ℚ) * 100
                            else 0) }
              else s },
         .scored)

/-- The `order_by(timestamp.desc()).first()` lookup of
`_update_user_answer_history` (service.py line 202): the stored answer
of this user on this question with the greatest timestamp. -/
def latestAnswer (answers : List UserAnswerRow) (user_id question_id : ℕ) :
    Option UserAnswerRow :=
  (answers.filter fun a => decide (a.user_id = user_id ∧ a.question_id = question_id)).foldl
    (fun acc a =>
      match acc with
      | none => some a
      | some b => if b.timestamp < a.timestamp then some a else acc)
    none

/-- The previous streak read by `_update_user_answer_history`
(service.py line 203), defaulting to 0 when there is no previous answer
or its streak column is null. -/
def prevCorrectStreak (answers : List UserAnswerRow) (user_id question_id : ℕ) : ℤ :=
  match latestAnswer answers user_id question_id with
  | none => 0
  | some a => a.correct_streak.getD 0

/-- Embedding of `AdaptiveQuizService._update_user_answer_history`
(service.py lines 201-205): append one `UserAnswer` row; a correct
answer increments the streak and schedules the next review from the
post-increment streak, an incorrect answer resets the streak to 0 and
schedules nothing. -/
def update_user_answer_history (cfg : Config) (now : ℤ) (answers : List UserAnswerRow)
    (user_id question_id : ℕ) (is_correct : Bool) (time_taken : ℤ) : List UserAnswerRow :=
  let last_streak := prevCorrectStreak answers user_id question_id
  let new_streak : ℤ := if is_correct then last_streak + 1 else 0
  answers ++
    [{ user_id := user_id
       question_id := question_id
       is_correct := is_correct
       timestamp := now
       correct_streak := some new_streak
       next_review_date :=
         if is_correct then some (calculate_next_review_date cfg now new_streak) else none
       time_taken := time_taken }]

/-- The question ids of a scored list. -/
def qsIds (l : List QuestionScore) : List ℕ := l.map QuestionScore.question_id

/-- The quota phase of the distribution controller as the specification
describes it: each category's integer quota is filled with the
top-scored items of that category's score-descending bucket. -/
def distributionCore (cfg : Config) (scored : List QuestionScore) (n : ℕ) :
    List QuestionScore :=
  (questionPool scored .weakness).take (targetCount cfg.target_weakness_pct n).toNat ++
  (questionPool scored .new_question).take (targetCount cfg.target_new_pct n).toNat ++
  (questionPool scored .srs_due).take (targetCount cfg.target_srs_pct n).toNat ++
  (questionPool scored .random_review).take (targetCountRandom cfg n).toNat

/-- The candidates left unselected by the quota phase. -/
def distributionLeftover (cfg : Config) (scored : List QuestionScore) (n : ℕ) :
    List QuestionScore :=
  (questionPool scored .weakness).drop (targetCount cfg.target_weakness_pct n).toNat ++
  (questionPool scored .new_question).drop (targetCount cfg.target_new_pct n).toNat ++
  (questionPool scored .srs_due).drop (targetCount cfg.target_srs_pct n).toNat ++
  (questionPool scored .random_review).drop (targetCountRandom cfg n).toNat

/-- The distribution controller's selection as the specification
describes it: the quota phase, then the remaining slots filled from all
still-unselected candidates sorted by score descending. -/
def distributionSpec (cfg : Config) (scored : List QuestionScore) (n : ℕ) :
    List QuestionScore :=
  distributionCore cfg scored n ++
    (sortByScoreDesc (distributionLeftover cfg scored n)).take
      (n - (distributionCore cfg scored n).length)

lemma srsIntervalDays_default (s : ℤ) :
    srsIntervalDays defaultConfig s =
      [1, 3, 7, 14, 30, 60, 120, 240, 480].getD (min (max 0 s).toNat 8) 0 := rfl

lemma one_le_srsIntervalDays_default (s : ℤ) : 1 ≤ srsIntervalDays defaultConfig s := by
  have hb : ∀ i < 9, 1 ≤ [1, 3, 7, 14, 30, 60, 120, 240, 480].getD i 0 := by decide
  rw [srsIntervalDays_default]
  exact hb _ (by omega)

lemma srsIntervalDays_default_mono {s₁ s₂ : ℤ} (h : s₁ ≤ s₂) :
    srsIntervalDays defaultConfig s₁ ≤ srsIntervalDays defaultConfig s₂ := by
  have hb : ∀ j < 9, ∀ i < 9, i ≤ j →
      [1, 3, 7, 14, 30, 60, 120, 240, 480].getD i 0 ≤
        [1, 3, 7, 14, 30, 60, 120, 240, 480].getD j 0 := by decide
  rw [srsIntervalDays_default, srsIntervalDays_default]
  exact hb _ (by omega) _ (by omega) (by omega)

/-- C2: `calculate_next_review_date` clamps the streak to be non-negative,
indexes the ascending interval table [1,3,7,14,30,60,120,240,480] with the
index clamped to the last entry, and returns now plus that many days; hence
the result is strictly in the future, the interval is non-decreasing in the
streak, streak 0 yields now + 1 day, and every streak ≥ 8 plateaus at 480
days. -/
theorem calculate_next_review_date_spec (now s₁ s₂ : ℤ) (h : s₁ ≤ s₂) :
    now < calculate_next_review_date defaultConfig now s₁ ∧
    srsIntervalDays defaultConfig s₁ ≤ srsIntervalDays defaultConfig s₂ ∧
    calculate_next_review_date defaultConfig now 0 = now + 86400 * 1 ∧
    (8 ≤ s₂ → calculate_next_review_date defaultConfig now s₂ = now + 86400 * 480) := by
  refine ⟨?_, srsIntervalDays_default_mono h, ?_, ?_⟩
  · have h1 := one_le_srsIntervalDays_default s₁
    unfold calculate_next_review_date
    omega
  · rfl
  · intro h8
    unfold calculate_next_review_date
    rw [srsIntervalDays_default]
    have hmin : min (max 0 s₂).toNat 8 = 8 := by omega
    rw [hmin]
    rfl

/-- Witness for C2 at now = 0, streaks 8 ≤ 9: the plateau entry is 480. -/
theorem calculate_next_review_date_spec_witness :
    (8 : ℤ) ≤ 9 ∧
    ((0 : ℤ) < calculate_next_review_date defaultConfig 0 8 ∧
     srsIntervalDays defaultConfig 8 ≤ srsIntervalDays defaultConfig 9 ∧
     calculate_next_review_date defaultConfig 0 0 = 0 + 86400 * 1 ∧
     (8 ≤ (9 : ℤ) → calculate_next_review_date defaultConfig 0 9 = 0 + 86400 * 480)) :=
  ⟨by decide, calculate_next_review_date_spec 0 8 9 (by decide)⟩

/-- C3: a performance record whose last attempt was incorrect always scores
as Weakness with score 100 + errorRate × 20, where errorRate is
1 − totalCorrect/totalAttempts and a zero totalAttempts is guarded to
errorRate 1. -/
theorem score_question_weakness_spec (now : ℤ) (qid : ℕ) (p : UserPerformance)
    (hwrong : p.last_attempt_correct = false)
    (h0 : 0 ≤ p.total_correct) (hle : p.total_correct ≤ p.total_attempts) :
    (score_question defaultConfig now qid (some p)).reason = .weakness ∧
    (score_question defaultConfig now qid (some p)).score =
      100 + (if p.total_attempts = 0 then 1
             else 1 - (p.total_correct : ℚ) / (p.total_attempts : ℚ)) * 20 := by
  constructor
  · simp [score_question, hwrong]
  · by_cases hta : p.total_attempts = 0
    · have htc : p.total_correct = 0 := by omega
      simp [score_question, hwrong, defaultConfig, hta, htc]
    · have h1 : max p.total_attempts 1 = p.total_attempts := max_eq_left (by omega)
      have h2 : max 0 p.total_correct = p.total_correct := max_eq_right h0
      have h3 : ¬ max 0 p.total_correct > max p.total_attempts 1 := by
        rw [h1, h2]; omega
      simp [score_question, hwrong, defaultConfig, h1, h2, h3, hta]
      rw [if_neg (by omega : ¬ p.total_attempts < p.total_correct)]

/-- The concrete weakness scenario of the spec: 4 attempts, 1 correct,
last attempt wrong. -/
def weaknessScenario : UserPerformance :=
  { question_id := 7, correct_streak := 0, last_attempt_correct := false,
    last_attempt_date := 0, total_attempts := 4, total_correct := 1 }

/-- Witness for C3: the spec scenario scores 100 + 0.75 × 20 = 115 with
reason Weakness. -/
theorem score_question_weakness_spec_witness :
    weaknessScenario.last_attempt_correct = false ∧
    (0 : ℤ) ≤ weaknessScenario.total_correct ∧
    weaknessScenario.total_correct ≤ weaknessScenario.total_attempts ∧
    ((score_question defaultConfig 0 7 (some weaknessScenario)).reason = .weakness ∧
     (score_question defaultConfig 0 7 (some weaknessScenario)).score =
       100 + (if weaknessScenario.total_attempts = 0 then 1
              else 1 - (weaknessScenario.total_correct : ℚ) /
                (weaknessScenario.total_attempts : ℚ)) * 20) ∧
    (score_question defaultConfig 0 7 (some weaknessScenario)).score = 115 := by
  have h := score_question_weakness_spec 0 7 weaknessScenario rfl (by decide) (by decide)
  refine ⟨rfl, by decide, by decide, h, ?_⟩
  rw [h.2]
  norm_num [weaknessScenario]

/-- C7 (code evaluation): in the selector present under src, a question
with no performance record is always scored with the flat new-question
base weight 50 and reason NewQuestion — `_score_question` takes no
difficulty or skill input at all, so no appropriateness multiplier is
ever applied. -/
theorem score_question_new_question_flat (now : ℤ) (question_id : ℕ) :
    score_question defaultConfig now question_id none =
      { question_id := question_id, score := 50, reason := .new_question } := rfl

/-- A performance record whose next review date (3600 s = one hour) is
strictly in the future relative to now = 0. -/
def srsFuturePerf : UserPerformance :=
  { question_id := 1, correct_streak := 3, last_attempt_correct := true,
    last_attempt_date := 0, total_attempts := 5, total_correct := 5,
    next_review_date := some 3600 }

/-- C8 counterexample: with now = 0 and nextReviewDate = 3600 s (one hour,
strictly in the future), the scorer still returns SrsDue, because the code
compares `(next_review_date - now).days <= 0` and the floor of one hour in
days is 0 — refuting the claim that SrsDue is never returned when
nextReviewDate is strictly in the future. -/
theorem score_question_srs_future_counterexample :
    (score_question defaultConfig 0 1 (some srsFuturePerf)).reason = .srs_due ∧
    ¬ ((3600 : ℤ) ≤ 0) := by decide

/-- C8 (amended): the scorer returns SrsDue exactly when the last attempt
was correct, a next review date is present, and the floor-division day
count of (nextReviewDate − now) is ≤ 0 — which also covers dates strictly
in the future by less than one full day; in that branch the score is
30 + min(daysOverdue × 2, 20) with daysOverdue = |floor days| ≥ 0. -/
theorem score_question_srs_spec (now : ℤ) (qid : ℕ) (p : UserPerformance) :
    ((score_question defaultConfig now qid (some p)).reason = .srs_due ↔
      p.last_attempt_correct = true ∧
      ∃ nrd, p.next_review_date = some nrd ∧ timedeltaDays (nrd - now) ≤ 0) ∧
    (∀ nrd, p.next_review_date = some nrd → p.last_attempt_correct = true →
      timedeltaDays (nrd - now) ≤ 0 →
      (score_question defaultConfig now qid (some p)).score =
        30 + min ((|timedeltaDays (nrd - now)| * 2 : ℤ) : ℚ) 20 ∧
      (0 : ℤ) ≤ |timedeltaDays (nrd - now)|) := by
  constructor
  · cases hb : p.last_attempt_correct with
    | false => simp [score_question, hb]
    | true =>
        cases hnrd : p.next_review_date with
        | none => simp [score_question, hb, hnrd]
        | some nrd =>
            by_cases hd : timedeltaDays (nrd - now) ≤ 0
            · simp [score_question, hb, hnrd, hd]
            · simp [score_question, hb, hnrd, hd]
  · intro nrd h' hlac hd
    refine ⟨?_, abs_nonneg _⟩
    simp [score_question, hlac, h', hd, defaultConfig]

/-- A performance record two full days overdue relative to now = 0. -/
def srsOverduePerf : UserPerformance :=
  { question_id := 2, correct_streak := 1, last_attempt_correct := true,
    last_attempt_date := 0, total_attempts := 3, total_correct := 2,
    next_review_date := some (-172800) }

/-- Witness for C8: two days overdue gives score 30 + min(2 × 2, 20) = 34. -/
theorem score_question_srs_spec_witness :
    srsOverduePerf.next_review_date = some (-172800) ∧
    srsOverduePerf.last_attempt_correct = true ∧
    timedeltaDays ((-172800 : ℤ) - 0) ≤ 0 ∧
    (score_question defaultConfig 0 2 (some srsOverduePerf)).score =
      30 + min ((|timedeltaDays ((-172800 : ℤ) - 0)| * 2 : ℤ) : ℚ) 20 ∧
    (score_question defaultConfig 0 2 (some srsOverduePerf)).score = 34 := by
  have h := ((score_question_srs_spec 0 2 srsOverduePerf).2 (-172800) rfl rfl (by decide)).1
  refine ⟨rfl, rfl, by decide, h, ?_⟩
  rw [h, show timedeltaDays ((-172800 : ℤ) - 0) = -2 from by decide]
  rw [show |(-2 : ℤ)| * 2 = 4 from by decide]
  rw [show ((4 : ℤ) : ℚ) = 4 from by norm_num]
  rw [min_eq_left (by norm_num : (4 : ℚ) ≤ 20)]
  norm_num

/-- C9: submitting a correct answer appends a `UserAnswer` row whose
streak is the previous streak plus one and whose next review date is the
SRS schedule for that post-increment streak; an incorrect answer appends
a row with streak 0 and no next review date. -/
theorem update_user_answer_history_spec (cfg : Config) (now : ℤ)
    (answers : List UserAnswerRow) (uid qid : ℕ) (tt : ℤ) :
    update_user_answer_history cfg now answers uid qid true tt =
      answers ++
        [{ user_id := uid, question_id := qid, is_correct := true, timestamp := now,
           correct_streak := some (prevCorrectStreak answers uid qid + 1),
           next_review_date :=
             some (calculate_next_review_date cfg now (prevCorrectStreak answers uid qid + 1)),
           time_taken := tt }] ∧
    update_user_answer_history cfg now answers uid qid false tt =
      answers ++
        [{ user_id := uid, question_id := qid, is_correct := false, timestamp := now,
           correct_streak := some 0, next_review_date := none, time_taken := tt }] :=
  ⟨rfl, rfl⟩

lemma cancel_quiz_session_deleted_eq (now : ℤ) (db : Db) (sid : ℕ) (s : QuizSessionRow)
    (hfind : db.sessions.find? (fun r => decide (r.id = sid)) = some s)
    (h0 : countAnswered db sid = 0) :
    cancel_quiz_session now db sid =
      ({ db with
          sessions := db.sessions.filter fun r => !decide (r.id = sid)
          session_questions :=
            db.session_questions.filter fun q => !decide (q.session_id = sid) },
       .deleted) := by
  unfold cancel_quiz_session
  rw [hfind]
  simp [h0]

lemma cancel_quiz_session_scored_eq (now : ℤ) (db : Db) (sid : ℕ) (s : QuizSessionRow)
    (hfind : db.sessions.find? (fun r => decide (r.id = sid)) = some s)
    (h0 : countAnswered db sid ≠ 0) :
    cancel_quiz_session now db sid =
      ({ db with
          sessions := db.sessions.map fun r =>
            if r.id = sid then
              { r with
                  status := .cancelled
                  completed_at := some now
                  final_score :=
                    some (if 0 < countAnswered db sid then
                            (countCorrect db sid : ℚ) / (countAnswered db sid : ℚ) * 100
                          else 0) }
            else r },
       .scored) := by
  unfold cancel_quiz_session
  rw [hfind]
  simp [h0]

/-- C6 (amended): cancelling a session that exists and has no answered
question hard-deletes the session row and its whole roster; cancelling
with at least one answered question marks it cancelled with
finalScore = correctCount / answeredCount × 100. -/
theorem cancel_quiz_session_spec (now : ℤ) (db : Db) (sid : ℕ) (s : QuizSessionRow)
    (hfind : db.sessions.find? (fun r => decide (r.id = sid)) = some s) :
    (countAnswered db sid = 0 →
      (cancel_quiz_session now db sid).2 = .deleted ∧
      (∀ r ∈ (cancel_quiz_session now db sid).1.sessions, r.id ≠ sid) ∧
      (∀ q ∈ (cancel_quiz_session now db sid).1.session_questions, q.session_id ≠ sid)) ∧
    (0 < countAnswered db sid →
      (cancel_quiz_session now db sid).2 = .scored ∧
      (cancel_quiz_session now db sid).1.session_questions = db.session_questions ∧
      (∀ r ∈ (cancel_quiz_session now db sid).1.sessions, r.id = sid →
        r.status = .cancelled ∧
        r.final_score = some ((countCorrect db sid : ℚ) / (countAnswered db sid : ℚ) * 100))) := by
  constructor
  · intro h0
    rw [cancel_quiz_session_deleted_eq now db sid s hfind h0]
    refine ⟨rfl, ?_, ?_⟩
    · intro r hr
      have h := (List.mem_filter.mp hr).2
      simpa using h
    · intro q hq
      have h := (List.mem_filter.mp hq).2
      simpa using h
  · intro hpos
    have hne : countAnswered db sid ≠ 0 := by omega
    rw [cancel_quiz_session_scored_eq now db sid s hfind hne]
    refine ⟨rfl, rfl, ?_⟩
    intro r hr hid
    simp only [List.mem_map] at hr
    obtain ⟨a, ha, heq⟩ := hr
    by_cases h : a.id = sid
    · rw [if_pos h] at heq
      subst heq
      exact ⟨rfl, by rw [if_pos hpos]⟩
    · rw [if_neg h] at heq
      subst heq
      exact absurd hid h

/-- A database holding one in-progress session (id 1) with a roster of two
questions, of which exactly one is answered and correct. -/
def cancelDbAnswered : Db :=
  { users := [1], courses := [1],
    sessions := [{ id := 1, user_id := 1, course_id := 1,
                   status := .in_progress, total_questions := 2 }],
    session_questions :=
      [{ session_id := 1, question_id := 10, order_number := 1, is_answered := true,
         is_correct := some true, selection_reason := .new_question, selection_score := 50 },
       { session_id := 1, question_id := 11, order_number := 2,
         selection_reason := .new_question, selection_score := 50 }],
    next_session_id := 2 }

/-- The same database with no question answered yet. -/
def cancelDbUnanswered : Db :=
  { users := [1], courses := [1],
    sessions := [{ id := 1, user_id := 1, course_id := 1,
                   status := .in_progress, total_questions := 2 }],
    session_questions :=
      [{ session_id := 1, question_id := 10, order_number := 1,
         selection_reason := .new_question, selection_score := 50 },
       { session_id := 1, question_id := 11, order_number := 2,
         selection_reason := .new_question, selection_score := 50 }],
    next_session_id := 2 }

/-- C6 counterexample: on a session with 2 roster questions of which 1 is
answered and that one correct, `cancel_quiz_session` stores
finalScore = 1/1 × 100 = 100.0, not the 50.0 the claim's scenario states
(the code divides by the answered count, not the roster size). -/
theorem cancel_quiz_session_scenario_counterexample :
    ((cancel_quiz_session 0 cancelDbAnswered 1).1.sessions.map fun r => r.final_score) =
      [some (100 : ℚ)] ∧
    ¬ (some (100 : ℚ) = some (50 : ℚ)) := by
  constructor
  · have h0 : countAnswered cancelDbAnswered 1 ≠ 0 := by decide
    have hca : countAnswered cancelDbAnswered 1 = 1 := by decide
    have hcc : countCorrect cancelDbAnswered 1 = 1 := by decide
    rw [cancel_quiz_session_scored_eq 0 cancelDbAnswered 1 _ rfl h0, hca, hcc]
    norm_num [cancelDbAnswered]
  · intro h
    have : (100 : ℚ) = 50 := by injection h
    norm_num at this

/-- Witness for C6: on `cancelDbAnswered` (1 of 2 answered, 1 correct) the
session is scored to 100; on `cancelDbUnanswered` (nothing answered) the
session and roster are hard-deleted. -/
theorem cancel_quiz_session_spec_witness :
    (0 < countAnswered cancelDbAnswered 1 ∧
      ((cancel_quiz_session 0 cancelDbAnswered 1).2 = .scored ∧
       (cancel_quiz_session 0 cancelDbAnswered 1).1.session_questions =
         cancelDbAnswered.session_questions ∧
       (∀ r ∈ (cancel_quiz_session 0 cancelDbAnswered 1).1.sessions, r.id = 1 →
         r.status = .cancelled ∧
         r.final_score = some ((countCorrect cancelDbAnswered 1 : ℚ) /
           (countAnswered cancelDbAnswered 1 : ℚ) * 100)))) ∧
    (countAnswered cancelDbUnanswered 1 = 0 ∧
      ((cancel_quiz_session 0 cancelDbUnanswered 1).2 = .deleted ∧
       (∀ r ∈ (cancel_quiz_session 0 cancelDbUnanswered 1).1.sessions, r.id ≠ 1) ∧
       (∀ q ∈ (cancel_quiz_session 0 cancelDbUnanswered 1).1.session_questions,
         q.session_id ≠ 1))) ∧
    (countCorrect cancelDbAnswered 1 : ℚ) / (countAnswered cancelDbAnswered 1 : ℚ) * 100 =
      100 :=
  ⟨⟨by decide, (cancel_quiz_session_spec 0 cancelDbAnswered 1 _ rfl).2 (by decide)⟩,
   ⟨by decide, (cancel_quiz_session_spec 0 cancelDbUnanswered 1 _ rfl).1 (by decide)⟩,
   by norm_num [show countCorrect cancelDbAnswered 1 = 1 from by decide,
                show countAnswered cancelDbAnswered 1 = 1 from by decide]⟩

lemma setFirstOngoingIncomplete_length (uid : ℕ) (l : List QuizSessionRow) :
    (setFirstOngoingIncomplete uid l).length = l.length := by
  induction l with
  | nil => rfl
  | cons s rest ih =>
      unfold setFirstOngoingIncomplete
      split
      · simp
      · simp [ih]

lemma setFirstOngoingIncomplete_mem (uid : ℕ) (l : List QuizSessionRow) :
    ∀ r ∈ setFirstOngoingIncomplete uid l, r ∈ l ∨ r.status = .incomplete := by
  induction l with
  | nil => simp [setFirstOngoingIncomplete]
  | cons s rest ih =>
      intro r hr
      unfold setFirstOngoingIncomplete at hr
      by_cases h : s.user_id = uid ∧ s.status = .in_progress
      · rw [if_pos h] at hr
        rcases List.mem_cons.mp hr with h1 | h2
        · right; rw [h1]
        · left; exact List.mem_cons_of_mem _ h2
      · rw [if_neg h] at hr
        rcases List.mem_cons.mp hr with h1 | h2
        · left; rw [h1]; exact List.mem_cons_self _ _
        · rcases ih r h2 with h3 | h3
          · left; exact List.mem_cons_of_mem _ h3
          · right; exact h3

lemma start_quiz_insufficient_eq (ga : ℕ → ℕ → ℤ → List QuestionScore × ℚ)
    (db : Db) (uid cid : ℕ) (len : ℤ)
    (hlen : 0 < len) (hu : uid ∈ db.users) (hc : cid ∈ db.courses)
    (hshort : ((ga uid cid len).1.length : ℤ) < len) :
    start_quiz ga db uid cid len =
      ({ db with sessions := setFirstOngoingIncomplete uid db.sessions },
       .insufficient_questions) := by
  unfold start_quiz
  rw [if_neg (by omega : ¬ len ≤ 0), if_neg (not_not_intro ⟨hu, hc⟩)]
  simp [hshort]

/-- C5: when the roster built for a start request is shorter than the
requested length, `start_quiz` answers "insufficient questions" and the
committed state carries no new `QuizSession` and no `QuizSessionQuestion`
rows — the only surviving write is the pre-committed marking of a stale
in-progress session as incomplete. -/
theorem start_quiz_insufficient_spec (ga : ℕ → ℕ → ℤ → List QuestionScore × ℚ)
    (db : Db) (uid cid : ℕ) (len : ℤ)
    (hlen : 0 < len) (hu : uid ∈ db.users) (hc : cid ∈ db.courses)
    (hshort : ((ga uid cid len).1.length : ℤ) < len) :
    start_quiz ga db uid cid len =
      ({ db with sessions := setFirstOngoingIncomplete uid db.sessions },
       .insufficient_questions) ∧
    (start_quiz ga db uid cid len).1.session_questions = db.session_questions ∧
    (start_quiz ga db uid cid len).1.sessions.length = db.sessions.length ∧
    (∀ r ∈ (start_quiz ga db uid cid len).1.sessions, r.status = .in_progress →
      r ∈ db.sessions) := by
  have he := start_quiz_insufficient_eq ga db uid cid len hlen hu hc hshort
  refine ⟨he, by rw [he], ?_, ?_⟩
  · rw [he]
    exact setFirstOngoingIncomplete_length uid db.sessions
  · rw [he]
    intro r hr hst
    rcases setFirstOngoingIncomplete_mem uid db.sessions r hr with h | h
    · exact h
    · rw [hst] at h
      cases h

/-- A six-question roster of new questions, as produced for a course with
only six questions when ten are requested. -/
def sixQuestionRoster : List QuestionScore :=
  [⟨11, 50, .new_question⟩, ⟨12, 50, .new_question⟩, ⟨13, 50, .new_question⟩,
   ⟨14, 50, .new_question⟩, ⟨15, 50, .new_question⟩, ⟨16, 50, .new_question⟩]

/-- A collaborator that can only produce the six-question roster. -/
def sixQuestionAdaptive : ℕ → ℕ → ℤ → List QuestionScore × ℚ :=
  fun _ _ _ => (sixQuestionRoster, 1/4)

/-- An empty database with one user and one course. -/
def startDb : Db :=
  { users := [1], courses := [2], sessions := [], session_questions := [],
    next_session_id := 1 }

/-- Witness for C5: requesting a quiz of length 10 when only 6 questions
can be selected yields the insufficient-questions error and persists
nothing. -/
theorem start_quiz_insufficient_spec_witness :
    (0 : ℤ) < 10 ∧ 1 ∈ startDb.users ∧ 2 ∈ startDb.courses ∧
    ((sixQuestionAdaptive 1 2 10).1.length : ℤ) < 10 ∧
    (start_quiz sixQuestionAdaptive startDb 1 2 10 =
      ({ startDb with sessions := setFirstOngoingIncomplete 1 startDb.sessions },
       .insufficient_questions) ∧
     (start_quiz sixQuestionAdaptive startDb 1 2 10).1.session_questions =
       startDb.session_questions ∧
     (start_quiz sixQuestionAdaptive startDb 1 2 10).1.sessions.length =
       startDb.sessions.length ∧
     (∀ r ∈ (start_quiz sixQuestionAdaptive startDb 1 2 10).1.sessions,
       r.status = .in_progress → r ∈ startDb.sessions)) :=
  ⟨by decide, by decide, by decide, by decide,
   start_quiz_insufficient_spec sixQuestionAdaptive startDb 1 2 10
     (by decide) (by decide) (by decide) (by decide)⟩

/-- The normalized difficulties of the 10 most recent qualifying entries,
most recent first. -/
def skillVals (user_performance : List UserPerformance) (min_d max_d : ℚ) : List ℚ :=
  (((qualifyingPerformance user_performance).insertionSort dateGe).take 10).map fun p =>
    normalizeDifficulty (p.difficulty_score.getD 0) min_d max_d

/-- The harmonic-decay weights 1/(i+1) matching `skillVals`. -/
def skillWs (user_performance : List UserPerformance) (min_d max_d : ℚ) : List ℚ :=
  (List.range (skillVals user_performance min_d max_d).length).map fun (i : ℕ) => (1 : ℚ) / ((i : ℚ) + 1)

lemma estimate_user_skill_level_empty (mn mx : ℚ) :
    estimate_user_skill_level [] mn mx = 1/4 := rfl

lemma estimate_user_skill_level_no_qualifying (perf : List UserPerformance) (mn mx : ℚ)
    (hp : perf ≠ []) (hq : qualifyingPerformance perf = []) :
    estimate_user_skill_level perf mn mx = 1/10 := by
  unfold estimate_user_skill_level
  rw [if_neg hp]
  simp [hq]

lemma estimate_user_skill_level_weighted (perf : List UserPerformance) (mn mx : ℚ)
    (hp : perf ≠ []) (hq : qualifyingPerformance perf ≠ []) :
    estimate_user_skill_level perf mn mx =
      (List.zipWith (fun v w => v * w) (skillVals perf mn mx) (skillWs perf mn mx)).sum /
        (skillWs perf mn mx).sum := by
  unfold estimate_user_skill_level
  rw [if_neg hp]
  simp [hq, skillWs, skillVals]

lemma normalizeDifficulty_bounds (d mn mx : ℚ) :
    0 ≤ normalizeDifficulty d mn mx ∧ normalizeDifficulty d mn mx ≤ 1 := by
  unfold normalizeDifficulty
  split
  · norm_num
  · exact ⟨le_min (by norm_num) (le_max_left 0 _), min_le_left _ _⟩

lemma zipWith_mul_sum_bounds :
    ∀ (vals ws : List ℚ), (∀ v ∈ vals, 0 ≤ v ∧ v ≤ 1) → (∀ w ∈ ws, 0 ≤ w) →
      0 ≤ (List.zipWith (fun v w => v * w) vals ws).sum ∧
      (List.zipWith (fun v w => v * w) vals ws).sum ≤ ws.sum
  | [], ws, _, hw => by
      simp only [List.zipWith_nil_left, List.sum_nil]
      exact ⟨le_rfl, List.sum_nonneg hw⟩
  | v :: vs, [], _, _ => by simp
  | v :: vs, w :: ws, hv, hw => by
      have ih := zipWith_mul_sum_bounds vs ws
        (fun x hx => hv x (List.mem_cons_of_mem _ hx))
        (fun x hx => hw x (List.mem_cons_of_mem _ hx))
      have hv0 := hv v (List.mem_cons_self _ _)
      have hw0 := hw w (List.mem_cons_self _ _)
      simp only [List.zipWith_cons_cons, List.sum_cons]
      constructor
      · exact add_nonneg (mul_nonneg hv0.1 hw0) ih.1
      · have hvw : v * w ≤ w := mul_le_of_le_one_left hw0 hv0.2
        linarith [ih.2]

lemma skillWs_nonneg (perf : List UserPerformance) (mn mx : ℚ) :
    ∀ w ∈ skillWs perf mn mx, 0 ≤ w := by
  intro w hw
  rw [skillWs] at hw
  obtain ⟨i, _, rfl⟩ := List.mem_map.mp hw
  have hpos : (0 : ℚ) < (i : ℚ) + 1 := by positivity
  exact div_nonneg zero_le_one (le_of_lt hpos)

lemma skillVals_length (perf : List UserPerformance) (mn mx : ℚ) :
    (skillVals perf mn mx).length = min 10 (qualifyingPerformance perf).length := by
  rw [skillVals, List.length_map, List.length_take, List.length_insertionSort]

lemma skillWs_sum_pos (perf : List UserPerformance) (mn mx : ℚ)
    (hq : qualifyingPerformance perf ≠ []) : 0 < (skillWs perf mn mx).sum := by
  have h0 : (qualifyingPerformance perf).length ≠ 0 := by
    simpa [List.length_eq_zero] using hq
  have hlen : 0 < (skillVals perf mn mx).length := by
    rw [skillVals_length]
    omega
  have h1 : (1 : ℚ) ∈ skillWs perf mn mx := by
    rw [skillWs]
    refine List.mem_map.mpr ⟨0, List.mem_range.mpr hlen, ?_⟩
    norm_num
  have := List.single_le_sum (skillWs_nonneg perf mn mx) 1 h1
  linarith

/-- C4: the skill estimator returns 0.25 on an empty history, 0.1 when no
entry qualifies (last attempt correct with a difficulty score present),
otherwise the harmonic-decay weighted average of the normalized
difficulties of the 10 most recent qualifying entries; for min < max its
output always lies in [0,1]. -/
theorem estimate_user_skill_level_spec (perf : List UserPerformance) (mn mx : ℚ)
    (h : mn < mx) :
    (perf = [] → estimate_user_skill_level perf mn mx = 1/4) ∧
    (perf ≠ [] → qualifyingPerformance perf = [] →
      estimate_user_skill_level perf mn mx = 1/10) ∧
    (perf ≠ [] → qualifyingPerformance perf ≠ [] →
      estimate_user_skill_level perf mn mx =
        (List.zipWith (fun v w => v * w) (skillVals perf mn mx) (skillWs perf mn mx)).sum /
          (skillWs perf mn mx).sum) ∧
    0 ≤ estimate_user_skill_level perf mn mx ∧
    estimate_user_skill_level perf mn mx ≤ 1 := by
  refine ⟨?_, ?_, ?_, ?_⟩
  · intro hp
    subst hp
    rfl
  · exact estimate_user_skill_level_no_qualifying perf mn mx
  · exact estimate_user_skill_level_weighted perf mn mx
  · by_cases hp : perf = []
    · subst hp
      rw [estimate_user_skill_level_empty]
      norm_num
    · by_cases hq : qualifyingPerformance perf = []
      · rw [estimate_user_skill_level_no_qualifying perf mn mx hp hq]
        norm_num
      · rw [estimate_user_skill_level_weighted perf mn mx hp hq]
        have hvals : ∀ v ∈ skillVals perf mn mx, 0 ≤ v ∧ v ≤ 1 := by
          intro v hv
          simp only [skillVals, List.mem_map] at hv
          obtain ⟨p, _, rfl⟩ := hv
          exact normalizeDifficulty_bounds _ mn mx
        have hsum := zipWith_mul_sum_bounds (skillVals perf mn mx) (skillWs perf mn mx)
          hvals (skillWs_nonneg perf mn mx)
        have hpos := skillWs_sum_pos perf mn mx hq
        constructor
        · exact div_nonneg hsum.1 (le_of_lt hpos)
        · rw [div_le_one hpos]
          exact hsum.2

/-- One qualifying performance entry: last attempt correct, difficulty 4. -/
def skillPerfQualifying : List UserPerformance :=
  [{ question_id := 1, correct_streak := 1, last_attempt_correct := true,
     last_attempt_date := 100, total_attempts := 3, total_correct := 3,
     difficulty_score := some 4 }]

/-- One non-qualifying performance entry: last attempt incorrect. -/
def skillPerfNonQualifying : List UserPerformance :=
  [{ question_id := 1, correct_streak := 0, last_attempt_correct := false,
     last_attempt_date := 100, total_attempts := 3, total_correct := 1,
     difficulty_score := some 4 }]

/-- Witness for C4: the three regimes at concrete inputs with range 3 < 5 —
empty history gives 0.25, a history without qualifying entries gives 0.1,
and a qualifying history stays within [0,1]. -/
theorem estimate_user_skill_level_spec_witness :
    (3 : ℚ) < 5 ∧
    estimate_user_skill_level [] 3 5 = 1/4 ∧
    estimate_user_skill_level skillPerfNonQualifying 3 5 = 1/10 ∧
    (0 ≤ estimate_user_skill_level skillPerfQualifying 3 5 ∧
     estimate_user_skill_level skillPerfQualifying 3 5 ≤ 1) :=
  ⟨by norm_num,
   (estimate_user_skill_level_spec [] 3 5 (by norm_num)).1 rfl,
   (estimate_user_skill_level_spec skillPerfNonQualifying 3 5 (by norm_num)).2.1
     (by decide) (by decide),
   ⟨((estimate_user_skill_level_spec skillPerfQualifying 3 5 (by norm_num)).2.2.2).1,
    ((estimate_user_skill_level_spec skillPerfQualifying 3 5 (by norm_num)).2.2.2).2⟩⟩

lemma sortByScoreDesc_perm (l : List QuestionScore) : List.Perm (sortByScoreDesc l) l :=
  l.perm_insertionSort scoreGe

lemma mem_questionPool {q : QuestionScore} {scored : List QuestionScore} {r : SelectionReason} :
    q ∈ questionPool scored r ↔ q ∈ scored ∧ q.reason = r := by
  unfold questionPool sortByScoreDesc
  rw [List.mem_insertionSort, List.mem_filter]
  simp

lemma qsIds_questionPool_nodup (scored : List QuestionScore)
    (hnd : (qsIds scored).Nodup) (r : SelectionReason) :
    (qsIds (questionPool scored r)).Nodup := by
  have hperm : List.Perm (qsIds (questionPool scored r))
      (qsIds (scored.filter fun q => decide (q.reason = r))) :=
    (sortByScoreDesc_perm _).map _
  have hsub : List.Sublist (qsIds (scored.filter fun q => decide (q.reason = r)))
      (qsIds scored) :=
    (List.filter_sublist _).map _
  exact hperm.symm.nodup (hsub.nodup hnd)

lemma questionPool_id_ne (scored : List QuestionScore) (hnd : (qsIds scored).Nodup)
    {r r' : SelectionReason} (hrr : r ≠ r') {q q' : QuestionScore}
    (hq : q ∈ questionPool scored r) (hq' : q' ∈ questionPool scored r') :
    q.question_id ≠ q'.question_id := by
  rw [mem_questionPool] at hq hq'
  intro heq
  have hqq : q = q' := List.inj_on_of_nodup_map hnd hq.1 hq'.1 heq
  apply hrr
  rw [← hq.2, ← hq'.2, hqq]

lemma pool_id_notin_takeIds {scored : List QuestionScore} (hnd : (qsIds scored).Nodup)
    {r r' : SelectionReason} (hrr : r ≠ r') {q : QuestionScore}
    (hq : q ∈ questionPool scored r) (k : ℕ) :
    q.question_id ∉ ((questionPool scored r').take k).map QuestionScore.question_id := by
  intro hmem
  obtain ⟨w, hw, hweq⟩ := List.mem_map.mp hmem
  exact questionPool_id_ne scored hnd hrr hq (List.take_subset _ _ hw) hweq.symm

lemma pool_id_drop_notin_take {scored : List QuestionScore} (hnd : (qsIds scored).Nodup)
    {r : SelectionReason} {k : ℕ} {q : QuestionScore}
    (hq : q ∈ (questionPool scored r).drop k) :
    q.question_id ∉ ((questionPool scored r).take k).map QuestionScore.question_id := by
  have hnd' := qsIds_questionPool_nodup scored hnd r
  rw [← List.take_append_drop k (questionPool scored r)] at hnd'
  rw [qsIds, List.map_append] at hnd'
  intro hmem
  exact (List.disjoint_of_nodup_append hnd') hmem (List.mem_map_of_mem _ hq)

lemma fillFromPool_eq_take (t : ℤ) :
    ∀ (pool : List QuestionScore) (c : ℤ) (ids : List ℕ) (sel : List QuestionScore),
      (∀ q ∈ pool, q.question_id ∉ ids) →
      (pool.map QuestionScore.question_id).Nodup →
      fillFromPool t pool c ids sel =
        (((pool.take (t - c).toNat).map QuestionScore.question_id).reverse ++ ids,
         sel ++ pool.take (t - c).toNat)
  | [], c, ids, sel, _, _ => by simp [fillFromPool]
  | q :: rest, c, ids, sel, hdisj, hnd => by
      have hq : q.question_id ∉ ids := hdisj q (List.mem_cons_self _ _)
      have hnd2 := hnd
      rw [List.map_cons, List.nodup_cons] at hnd2
      have hqrest : q.question_id ∉ rest.map QuestionScore.question_id := hnd2.1
      have hndrest : (rest.map QuestionScore.question_id).Nodup := hnd2.2
      by_cases hc : c < t
      · have hdisj' : ∀ x ∈ rest, x.question_id ∉ q.question_id :: ids := by
          intro x hx
          simp only [List.mem_cons]
          push_neg
          refine ⟨?_, hdisj x (List.mem_cons_of_mem _ hx)⟩
          intro hxeq
          exact hqrest (hxeq ▸ List.mem_map_of_mem _ hx)
        have ih := fillFromPool_eq_take t rest (c + 1) (q.question_id :: ids)
          (sel ++ [q]) hdisj' hndrest
        have hts : (t - c).toNat = (t - (c + 1)).toNat + 1 := by omega
        rw [hts, List.take_succ_cons]
        simp only [fillFromPool, if_pos (And.intro hc hq)]
        rw [ih]
        simp
      · have ih := fillFromPool_eq_take t rest c ids sel
          (fun x hx => hdisj x (List.mem_cons_of_mem _ hx)) hndrest
        have hts : (t - c).toNat = 0 := by omega
        rw [hts, List.take_zero]
        simp only [fillFromPool]
        rw [if_neg (by tauto : ¬ (c < t ∧ q.question_id ∉ ids))]
        rw [ih, hts, List.take_zero]

lemma fillRemaining_eq (n : ℕ) :
    ∀ (l sel : List QuestionScore),
      fillRemaining n sel l = sel ++ l.take (n - sel.length)
  | [], sel => by simp [fillRemaining]
  | q :: rest, sel => by
      unfold fillRemaining
      by_cases h : sel.length < n
      · rw [if_pos h, fillRemaining_eq n rest (sel ++ [q])]
        have h1 : n - sel.length = (n - (sel ++ [q]).length) + 1 := by
          simp only [List.length_append, List.length_singleton]
          omega
        rw [h1, List.take_succ_cons]
        simp
      · rw [if_neg h]
        have h1 : n - sel.length = 0 := by omega
        rw [h1, List.take_zero, List.append_nil]

lemma apply_distribution_control_eq (cfg : Config)
    (shuffle : List QuestionScore → List QuestionScore)
    (scored : List QuestionScore) (n : ℕ) (hnd : (qsIds scored).Nodup) :
    apply_distribution_control cfg shuffle scored n =
      (shuffle (distributionSpec cfg scored n)).take n := by
  have hndW := qsIds_questionPool_nodup scored hnd .weakness
  have hndN := qsIds_questionPool_nodup scored hnd .new_question
  have hndS := qsIds_questionPool_nodup scored hnd .srs_due
  have hndR := qsIds_questionPool_nodup scored hnd .random_review
  rw [qsIds] at hndW hndN hndS hndR
  simp only [apply_distribution_control]
  rw [fillFromPool_eq_take (targetCount cfg.target_weakness_pct n)
        (questionPool scored .weakness) 0 [] [] (by simp) hndW]
  simp only [Int.sub_zero, List.append_nil, List.nil_append]
  rw [fillFromPool_eq_take (targetCount cfg.target_new_pct n)
        (questionPool scored .new_question) 0
        (((questionPool scored .weakness).take
            (targetCount cfg.target_weakness_pct n).toNat).map
          QuestionScore.question_id).reverse
        ((questionPool scored .weakness).take (targetCount cfg.target_weakness_pct n).toNat)
        (by
          intro x hx
          rw [List.mem_reverse]
          exact pool_id_notin_takeIds hnd (by decide) hx _)
        hndN]
  simp only [Int.sub_zero]
  rw [fillFromPool_eq_take (targetCount cfg.target_srs_pct n)
        (questionPool scored .srs_due) 0
        ((((questionPool scored .new_question).take
            (targetCount cfg.target_new_pct n).toNat).map
          QuestionScore.question_id).reverse ++
         (((questionPool scored .weakness).take
            (targetCount cfg.target_weakness_pct n).toNat).map
          QuestionScore.question_id).reverse)
        ((questionPool scored .weakness).take (targetCount cfg.target_weakness_pct n).toNat ++
         (questionPool scored .new_question).take (targetCount cfg.target_new_pct n).toNat)
        (by
          intro x hx
          simp only [List.mem_append, List.mem_reverse]
          push_neg
          exact ⟨pool_id_notin_takeIds hnd (by decide) hx _,
                 pool_id_notin_takeIds hnd (by decide) hx _⟩)
        hndS]
  simp only [Int.sub_zero]
  rw [fillFromPool_eq_take (targetCountRandom cfg n)
        (questionPool scored .random_review) 0
        ((((questionPool scored .srs_due).take
            (targetCount cfg.target_srs_pct n).toNat).map
          QuestionScore.question_id).reverse ++
         ((((questionPool scored .new_question).take
            (targetCount cfg.target_new_pct n).toNat).map
          QuestionScore.question_id).reverse ++
          (((questionPool scored .weakness).take
            (targetCount cfg.target_weakness_pct n).toNat).map
          QuestionScore.question_id).reverse))
        ((questionPool scored .weakness).take (targetCount cfg.target_weakness_pct n).toNat ++
         (questionPool scored .new_question).take (targetCount cfg.target_new_pct n).toNat ++
         (questionPool scored .srs_due).take (targetCount cfg.target_srs_pct n).toNat)
        (by
          intro x hx
          simp only [List.mem_append, List.mem_reverse]
          push_neg
          exact ⟨pool_id_notin_takeIds hnd (by decide) hx _,
                 pool_id_notin_takeIds hnd (by decide) hx _,
                 pool_id_notin_takeIds hnd (by decide) hx _⟩)
        hndR]
  simp only [Int.sub_zero]
  set A := (questionPool scored .weakness).take (targetCount cfg.target_weakness_pct n).toNat
    with hA
  set B := (questionPool scored .new_question).take (targetCount cfg.target_new_pct n).toNat
    with hB
  set C := (questionPool scored .srs_due).take (targetCount cfg.target_srs_pct n).toNat
    with hC
  set D := (questionPool scored .random_review).take (targetCountRandom cfg n).toNat
    with hD
  have hidsAll : ∀ a : ℕ,
      a ∈ (D.map QuestionScore.question_id).reverse ++
            ((C.map QuestionScore.question_id).reverse ++
              ((B.map QuestionScore.question_id).reverse ++
                (A.map QuestionScore.question_id).reverse)) ↔
        (a ∈ A.map QuestionScore.question_id ∨ a ∈ B.map QuestionScore.question_id ∨
         a ∈ C.map QuestionScore.question_id ∨ a ∈ D.map QuestionScore.question_id) := by
    intro a
    simp only [List.mem_append, List.mem_reverse]
    tauto
  have hfW : (questionPool scored .weakness).filter
        (fun q => decide (q.question_id ∉
          (D.map QuestionScore.question_id).reverse ++
            ((C.map QuestionScore.question_id).reverse ++
              ((B.map QuestionScore.question_id).reverse ++
                (A.map QuestionScore.question_id).reverse)))) =
      (questionPool scored .weakness).drop (targetCount cfg.target_weakness_pct n).toNat := by
    conv_lhs =>
      rw [← List.take_append_drop (targetCount cfg.target_weakness_pct n).toNat
            (questionPool scored .weakness)]
    rw [List.filter_append, ← hA]
    have h1 : A.filter
        (fun q => decide (q.question_id ∉
          (D.map QuestionScore.question_id).reverse ++
            ((C.map QuestionScore.question_id).reverse ++
              ((B.map QuestionScore.question_id).reverse ++
                (A.map QuestionScore.question_id).reverse)))) = [] := by
      rw [List.filter_eq_nil_iff]
      intro q hq
      simp only [decide_eq_true_eq, not_not]
      exact (hidsAll _).mpr (Or.inl (List.mem_map_of_mem _ hq))
    have h2 : ((questionPool scored .weakness).drop
          (targetCount cfg.target_weakness_pct n).toNat).filter
        (fun q => decide (q.question_id ∉
          (D.map QuestionScore.question_id).reverse ++
            ((C.map QuestionScore.question_id).reverse ++
              ((B.map QuestionScore.question_id).reverse ++
                (A.map QuestionScore.question_id).reverse)))) =
        (questionPool scored .weakness).drop (targetCount cfg.target_weakness_pct n).toNat := by
      rw [List.filter_eq_self]
      intro q hq
      simp only [decide_eq_true_eq]
      rw [hidsAll]
      push_neg
      refine ⟨?_, ?_, ?_, ?_⟩
      · rw [hA]
        exact pool_id_drop_notin_take hnd hq
      · rw [hB]
        exact pool_id_notin_takeIds hnd (by decide) (List.drop_subset _ _ hq) _
      · rw [hC]
        exact pool_id_notin_takeIds hnd (by decide) (List.drop_subset _ _ hq) _
      · rw [hD]
        exact pool_id_notin_takeIds hnd (by decide) (List.drop_subset _ _ hq) _
    rw [h1, h2, List.nil_append]
  have hfN : (questionPool scored .new_question).filter
        (fun q => decide (q.question_id ∉
          (D.map QuestionScore.question_id).reverse ++
            ((C.map QuestionScore.question_id).reverse ++
              ((B.map QuestionScore.question_id).reverse ++
                (A.map QuestionScore.question_id).reverse)))) =
      (questionPool scored .new_question).drop (targetCount cfg.target_new_pct n).toNat := by
    conv_lhs =>
      rw [← List.take_append_drop (targetCount cfg.target_new_pct n).toNat
            (questionPool scored .new_question)]
    rw [List.filter_append, ← hB]
    have h1 : B.filter
        (fun q => decide (q.question_id ∉
          (D.map QuestionScore.question_id).reverse ++
            ((C.map QuestionScore.question_id).reverse ++
              ((B.map QuestionScore.question_id).reverse ++
                (A.map QuestionScore.question_id).reverse)))) = [] := by
      rw [List.filter_eq_nil_iff]
      intro q hq
      simp only [decide_eq_true_eq, not_not]
      exact (hidsAll _).mpr (Or.inr (Or.inl (List.mem_map_of_mem _ hq)))
    have h2 : ((questionPool scored .new_question).drop
          (targetCount cfg.target_new_pct n).toNat).filter
        (fun q => decide (q.question_id ∉
          (D.map QuestionScore.question_id).reverse ++
            ((C.map QuestionScore.question_id).reverse ++
              ((B.map QuestionScore.question_id).reverse ++
                (A.map QuestionScore.question_id).reverse)))) =
        (questionPool scored .new_question).drop (targetCount cfg.target_new_pct n).toNat := by
      rw [List.filter_eq_self]
      intro q hq
      simp only [decide_eq_true_eq]
      rw [hidsAll]
      push_neg
      refine ⟨?_, ?_, ?_, ?_⟩
      · rw [hA]
        exact pool_id_notin_takeIds hnd (by decide) (List.drop_subset _ _ hq) _
      · rw [hB]
        exact pool_id_drop_notin_take hnd hq
      · rw [hC]
        exact pool_id_notin_takeIds hnd (by decide) (List.drop_subset _ _ hq) _
      · rw [hD]
        exact pool_id_notin_takeIds hnd (by decide) (List.drop_subset _ _ hq) _
    rw [h1, h2, List.nil_append]
  have hfS : (questionPool scored .srs_due).filter
        (fun q => decide (q.question_id ∉
          (D.map QuestionScore.question_id).reverse ++
            ((C.map QuestionScore.question_id).reverse ++
              ((B.map QuestionScore.question_id).reverse ++
                (A.map QuestionScore.question_id).reverse)))) =
      (questionPool scored .srs_due).drop (targetCount cfg.target_srs_pct n).toNat := by
    conv_lhs =>
      rw [← List.take_append_drop (targetCount cfg.target_srs_pct n).toNat
            (questionPool scored .srs_due)]
    rw [List.filter_append, ← hC]
    have h1 : C.filter
        (fun q => decide (q.question_id ∉
          (D.map QuestionScore.question_id).reverse ++
            ((C.map QuestionScore.question_id).reverse ++
              ((B.map QuestionScore.question_id).reverse ++
                (A.map QuestionScore.question_id).reverse)))) = [] := by
      rw [List.filter_eq_nil_iff]
      intro q hq
      simp only [decide_eq_true_eq, not_not]
      exact (hidsAll _).mpr (Or.inr (Or.inr (Or.inl (List.mem_map_of_mem _ hq))))
    have h2 : ((questionPool scored .srs_due).drop
          (targetCount cfg.target_srs_pct n).toNat).filter
        (fun q => decide (q.question_id ∉
          (D.map QuestionScore.question_id).reverse ++
            ((C.map QuestionScore.question_id).reverse ++
              ((B.map QuestionScore.question_id).reverse ++
                (A.map QuestionScore.question_id).reverse)))) =
        (questionPool scored .srs_due).drop (targetCount cfg.target_srs_pct n).toNat := by
      rw [List.filter_eq_self]
      intro q hq
      simp only [decide_eq_true_eq]
      rw [hidsAll]
      push_neg
      refine ⟨?_, ?_, ?_, ?_⟩
      · rw [hA]
        exact pool_id_notin_takeIds hnd (by decide) (List.drop_subset _ _ hq) _
      · rw [hB]
        exact pool_id_notin_takeIds hnd (by decide) (List.drop_subset _ _ hq) _
      · rw [hC]
        exact pool_id_drop_notin_take hnd hq
      · rw [hD]
        exact pool_id_notin_takeIds hnd (by decide) (List.drop_subset _ _ hq) _
    rw [h1, h2, List.nil_append]
  have hfR : (questionPool scored .random_review).filter
        (fun q => decide (q.question_id ∉
          (D.map QuestionScore.question_id).reverse ++
            ((C.map QuestionScore.question_id).reverse ++
              ((B.map QuestionScore.question_id).reverse ++
                (A.map QuestionScore.question_id).reverse)))) =
      (questionPool scored .random_review).drop (targetCountRandom cfg n).toNat := by
    conv_lhs =>
      rw [← List.take_append_drop (targetCountRandom cfg n).toNat
            (questionPool scored .random_review)]
    rw [List.filter_append, ← hD]
    have h1 : D.filter
        (fun q => decide (q.question_id ∉
          (D.map QuestionScore.question_id).reverse ++
            ((C.map QuestionScore.question_id).reverse ++
              ((B.map QuestionScore.question_id).reverse ++
                (A.map QuestionScore.question_id).reverse)))) = [] := by
      rw [List.filter_eq_nil_iff]
      intro q hq
      simp only [decide_eq_true_eq, not_not]
      exact (hidsAll _).mpr (Or.inr (Or.inr (Or.inr (List.mem_map_of_mem _ hq))))
    have h2 : ((questionPool scored .random_review).drop
          (targetCountRandom cfg n).toNat).filter
        (fun q => decide (q.question_id ∉
          (D.map QuestionScore.question_id).reverse ++
            ((C.map QuestionScore.question_id).reverse ++
              ((B.map QuestionScore.question_id).reverse ++
                (A.map QuestionScore.question_id).reverse)))) =
        (questionPool scored .random_review).drop (targetCountRandom cfg n).toNat := by
      rw [List.filter_eq_self]
      intro q hq
      simp only [decide_eq_true_eq]
      rw [hidsAll]
      push_neg
      refine ⟨?_, ?_, ?_, ?_⟩
      · rw [hA]
        exact pool_id_notin_takeIds hnd (by decide) (List.drop_subset _ _ hq) _
      · rw [hB]
        exact pool_id_notin_takeIds hnd (by decide) (List.drop_subset _ _ hq) _
      · rw [hC]
        exact pool_id_notin_takeIds hnd (by decide) (List.drop_subset _ _ hq) _
      · rw [hD]
        exact pool_id_drop_notin_take hnd hq
    rw [h1, h2, List.nil_append]
  rw [List.filter_append, List.filter_append, List.filter_append, hfW, hfN, hfS, hfR]
  by_cases hrem : 0 < (n : ℤ) - (A ++ B ++ C ++ D).length
  · rw [if_pos hrem, fillRemaining_eq]
    simp only [distributionSpec, distributionCore, distributionLeftover]
  · rw [if_neg hrem]
    have h0 : n - (A ++ B ++ C ++ D).length = 0 := by omega
    simp only [distributionSpec, distributionCore, distributionLeftover]
    rw [← hA, ← hB, ← hC, ← hD, h0, List.take_zero, List.append_nil]

lemma filter_reason_cons_eq (q : QuestionScore) (rest : List QuestionScore)
    (r : SelectionReason) (h : q.reason = r) :
    (q :: rest).filter (fun x => decide (x.reason = r)) =
      q :: rest.filter (fun x => decide (x.reason = r)) := by
  rw [List.filter_cons, if_pos (by simp [h])]

lemma filter_reason_cons_ne (q : QuestionScore) (rest : List QuestionScore)
    (r : SelectionReason) (h : q.reason ≠ r) :
    (q :: rest).filter (fun x => decide (x.reason = r)) =
      rest.filter (fun x => decide (x.reason = r)) := by
  rw [List.filter_cons, if_neg (by simp [h])]

lemma count_filter_reason_partition (l : List QuestionScore) (x : QuestionScore) :
    (l.filter fun q => decide (q.reason = .weakness)).count x +
      (l.filter fun q => decide (q.reason = .new_question)).count x +
      (l.filter fun q => decide (q.reason = .srs_due)).count x +
      (l.filter fun q => decide (q.reason = .random_review)).count x = l.count x := by
  induction l with
  | nil => simp
  | cons q rest ih =>
      cases h : q.reason with
      | weakness =>
          rw [filter_reason_cons_eq q rest SelectionReason.weakness h,
              filter_reason_cons_ne q rest SelectionReason.new_question (by simp [h]),
              filter_reason_cons_ne q rest SelectionReason.srs_due (by simp [h]),
              filter_reason_cons_ne q rest SelectionReason.random_review (by simp [h])]
          simp only [List.count_cons]
          omega
      | new_question =>
          rw [filter_reason_cons_ne q rest SelectionReason.weakness (by simp [h]),
              filter_reason_cons_eq q rest SelectionReason.new_question h,
              filter_reason_cons_ne q rest SelectionReason.srs_due (by simp [h]),
              filter_reason_cons_ne q rest SelectionReason.random_review (by simp [h])]
          simp only [List.count_cons]
          omega
      | srs_due =>
          rw [filter_reason_cons_ne q rest SelectionReason.weakness (by simp [h]),
              filter_reason_cons_ne q rest SelectionReason.new_question (by simp [h]),
              filter_reason_cons_eq q rest SelectionReason.srs_due h,
              filter_reason_cons_ne q rest SelectionReason.random_review (by simp [h])]
          simp only [List.count_cons]
          omega
      | random_review =>
          rw [filter_reason_cons_ne q rest SelectionReason.weakness (by simp [h]),
              filter_reason_cons_ne q rest SelectionReason.new_question (by simp [h]),
              filter_reason_cons_ne q rest SelectionReason.srs_due (by simp [h]),
              filter_reason_cons_eq q rest SelectionReason.random_review h]
          simp only [List.count_cons]
          omega

lemma distributionCore_append_leftover_perm (cfg : Config) (scored : List QuestionScore)
    (n : ℕ) :
    List.Perm (distributionCore cfg scored n ++ distributionLeftover cfg scored n) scored := by
  apply List.perm_iff_count.mpr
  intro x
  simp only [distributionCore, distributionLeftover, List.count_append]
  have hW : List.count x ((questionPool scored .weakness).take
        (targetCount cfg.target_weakness_pct n).toNat) +
      List.count x ((questionPool scored .weakness).drop
        (targetCount cfg.target_weakness_pct n).toNat) =
      List.count x (scored.filter fun q => decide (q.reason = .weakness)) := by
    rw [← List.count_append, List.take_append_drop]
    exact (sortByScoreDesc_perm _).count_eq x
  have hN : List.count x ((questionPool scored .new_question).take
        (targetCount cfg.target_new_pct n).toNat) +
      List.count x ((questionPool scored .new_question).drop
        (targetCount cfg.target_new_pct n).toNat) =
      List.count x (scored.filter fun q => decide (q.reason = .new_question)) := by
    rw [← List.count_append, List.take_append_drop]
    exact (sortByScoreDesc_perm _).count_eq x
  have hS : List.count x ((questionPool scored .srs_due).take
        (targetCount cfg.target_srs_pct n).toNat) +
      List.count x ((questionPool scored .srs_due).drop
        (targetCount cfg.target_srs_pct n).toNat) =
      List.count x (scored.filter fun q => decide (q.reason = .srs_due)) := by
    rw [← List.count_append, List.take_append_drop]
    exact (sortByScoreDesc_perm _).count_eq x
  have hR : List.count x ((questionPool scored .random_review).take
        (targetCountRandom cfg n).toNat) +
      List.count x ((questionPool scored .random_review).drop
        (targetCountRandom cfg n).toNat) =
      List.count x (scored.filter fun q => decide (q.reason = .random_review)) := by
    rw [← List.count_append, List.take_append_drop]
    exact (sortByScoreDesc_perm _).count_eq x
  have hpart := count_filter_reason_partition scored x
  omega

lemma distributionSpec_sublist_full (cfg : Config) (scored : List QuestionScore) (n : ℕ) :
    List.Sublist (distributionSpec cfg scored n)
      (distributionCore cfg scored n ++ sortByScoreDesc (distributionLeftover cfg scored n)) := by
  unfold distributionSpec
  exact (List.take_sublist _ _).append_left _

lemma distributionFull_perm_scored (cfg : Config) (scored : List QuestionScore) (n : ℕ) :
    List.Perm (distributionCore cfg scored n ++ sortByScoreDesc (distributionLeftover cfg scored n))
      scored := by
  refine List.Perm.trans ?_ (distributionCore_append_leftover_perm cfg scored n)
  exact List.Perm.append_left _ (sortByScoreDesc_perm _)

lemma mem_scored_of_mem_distributionSpec (cfg : Config) (scored : List QuestionScore) (n : ℕ)
    {q : QuestionScore} (hq : q ∈ distributionSpec cfg scored n) : q ∈ scored :=
  (distributionFull_perm_scored cfg scored n).mem_iff.mp
    ((distributionSpec_sublist_full cfg scored n).subset hq)

lemma qsIds_distributionSpec_nodup (cfg : Config) (scored : List QuestionScore) (n : ℕ)
    (hnd : (qsIds scored).Nodup) : (qsIds (distributionSpec cfg scored n)).Nodup := by
  have h1 : List.Sublist (qsIds (distributionSpec cfg scored n))
      (qsIds (distributionCore cfg scored n ++
        sortByScoreDesc (distributionLeftover cfg scored n))) :=
    (distributionSpec_sublist_full cfg scored n).map _
  have h2 : List.Perm
      (qsIds (distributionCore cfg scored n ++
        sortByScoreDesc (distributionLeftover cfg scored n)))
      (qsIds scored) :=
    (distributionFull_perm_scored cfg scored n).map _
  exact h1.nodup (h2.symm.nodup hnd)

lemma pyInt_nonneg_eq_floor {q : ℚ} (h : 0 ≤ q) : pyInt q = ⌊q⌋ := by
  rw [pyInt, if_neg (not_lt.mpr h)]

lemma targetCounts_default (n : ℕ) :
    0 ≤ targetCount defaultConfig.target_weakness_pct n ∧
    0 ≤ targetCount defaultConfig.target_new_pct n ∧
    0 ≤ targetCount defaultConfig.target_srs_pct n ∧
    0 ≤ targetCountRandom defaultConfig n ∧
    (targetCount defaultConfig.target_weakness_pct n).toNat +
      (targetCount defaultConfig.target_new_pct n).toNat +
      (targetCount defaultConfig.target_srs_pct n).toNat +
      (targetCountRandom defaultConfig n).toNat = n := by
  have e1 : targetCount defaultConfig.target_weakness_pct n = ⌊(n : ℚ) * (6/10)⌋ := by
    show pyInt ((n : ℚ) * (6/10)) = ⌊(n : ℚ) * (6/10)⌋
    exact pyInt_nonneg_eq_floor (by positivity)
  have e2 : targetCount defaultConfig.target_new_pct n = ⌊(n : ℚ) * (25/100)⌋ := by
    show pyInt ((n : ℚ) * (25/100)) = ⌊(n : ℚ) * (25/100)⌋
    exact pyInt_nonneg_eq_floor (by positivity)
  have e3 : targetCount defaultConfig.target_srs_pct n = ⌊(n : ℚ) * (15/100)⌋ := by
    show pyInt ((n : ℚ) * (15/100)) = ⌊(n : ℚ) * (15/100)⌋
    exact pyInt_nonneg_eq_floor (by positivity)
  have f1 : 0 ≤ ⌊(n : ℚ) * (6/10)⌋ := Int.floor_nonneg.mpr (by positivity)
  have f2 : 0 ≤ ⌊(n : ℚ) * (25/100)⌋ := Int.floor_nonneg.mpr (by positivity)
  have f3 : 0 ≤ ⌊(n : ℚ) * (15/100)⌋ := Int.floor_nonneg.mpr (by positivity)
  have hsum : ⌊(n : ℚ) * (6/10)⌋ + ⌊(n : ℚ) * (25/100)⌋ + ⌊(n : ℚ) * (15/100)⌋ ≤ (n : ℤ) := by
    have h1 := Int.floor_le ((n : ℚ) * (6/10))
    have h2 := Int.floor_le ((n : ℚ) * (25/100))
    have h3 := Int.floor_le ((n : ℚ) * (15/100))
    have hq : ((⌊(n : ℚ) * (6/10)⌋ + ⌊(n : ℚ) * (25/100)⌋ + ⌊(n : ℚ) * (15/100)⌋ : ℤ) : ℚ) ≤
        (n : ℚ) := by
      push_cast
      linarith
    exact_mod_cast hq
  have e4 : targetCountRandom defaultConfig n =
      (n : ℤ) - (⌊(n : ℚ) * (6/10)⌋ + ⌊(n : ℚ) * (25/100)⌋ + ⌊(n : ℚ) * (15/100)⌋) := by
    rw [targetCountRandom, e1, e2, e3]
  refine ⟨by rw [e1]; exact f1, by rw [e2]; exact f2, by rw [e3]; exact f3,
    by rw [e4]; omega, ?_⟩
  rw [e1, e2, e3, e4]
  omega

lemma distributionSpec_length_default (scored : List QuestionScore) (n : ℕ) :
    (distributionSpec defaultConfig scored n).length = min n scored.length := by
  have htot : (distributionCore defaultConfig scored n).length +
      (distributionLeftover defaultConfig scored n).length = scored.length := by
    have h := (distributionCore_append_leftover_perm defaultConfig scored n).length_eq
    simpa [List.length_append] using h
  have hcore : (distributionCore defaultConfig scored n).length ≤ n := by
    obtain ⟨h1, h2, h3, h4, h5⟩ := targetCounts_default n
    simp only [distributionCore, List.length_append, List.length_take]
    omega
  unfold distributionSpec
  rw [List.length_append, List.length_take]
  have hsl : (sortByScoreDesc (distributionLeftover defaultConfig scored n)).length =
      (distributionLeftover defaultConfig scored n).length :=
    (sortByScoreDesc_perm _).length_eq
  rw [hsl]
  omega

/-- C1: with the default configuration and any permutation-shuffle, the
distribution controller's output is a permutation of the procedure the
specification describes (each category's integer quota filled with the
top-scored items of that category's score-descending bucket, never
selecting an id twice, remaining slots filled from all still-unselected
candidates sorted by score descending), its length is exactly
min(N, pool size), and no question id occurs twice; each bucket and the
fallback pool really are score-descending. -/
theorem apply_distribution_control_spec
    (shuffle : List QuestionScore → List QuestionScore)
    (hsh : ∀ l, List.Perm (shuffle l) l)
    (scored : List QuestionScore) (n : ℕ) (hn : 0 < n)
    (hnd : (qsIds scored).Nodup) :
    List.Perm (apply_distribution_control defaultConfig shuffle scored n)
      (distributionSpec defaultConfig scored n) ∧
    (apply_distribution_control defaultConfig shuffle scored n).length = min n scored.length ∧
    (qsIds (apply_distribution_control defaultConfig shuffle scored n)).Nodup ∧
    (∀ r, List.Sorted scoreGe (questionPool scored r)) ∧
    List.Sorted scoreGe (sortByScoreDesc (distributionLeftover defaultConfig scored n)) := by
  have he := apply_distribution_control_eq defaultConfig shuffle scored n hnd
  have hlen := distributionSpec_length_default scored n
  have hlen2 : (shuffle (distributionSpec defaultConfig scored n)).length =
      (distributionSpec defaultConfig scored n).length := (hsh _).length_eq
  have htk : (shuffle (distributionSpec defaultConfig scored n)).take n =
      shuffle (distributionSpec defaultConfig scored n) := by
    apply List.take_of_length_le
    rw [hlen2, hlen]
    omega
  have hperm : List.Perm (apply_distribution_control defaultConfig shuffle scored n)
      (distributionSpec defaultConfig scored n) := by
    rw [he, htk]
    exact hsh _
  refine ⟨hperm, ?_, ?_, ?_, ?_⟩
  · rw [hperm.length_eq, hlen]
  · exact ((hperm.map QuestionScore.question_id).symm).nodup
      (qsIds_distributionSpec_nodup defaultConfig scored n hnd)
  · intro r
    exact List.sorted_insertionSort scoreGe _
  · exact List.sorted_insertionSort scoreGe _

/-- A scored candidate pool with one question in each of three categories. -/
def samplePool : List QuestionScore :=
  [⟨1, 100, .weakness⟩, ⟨2, 50, .new_question⟩, ⟨3, 30, .srs_due⟩]

/-- Witness for C1: a three-question pool and quiz length 2 with the
identity shuffle. -/
theorem apply_distribution_control_spec_witness :
    0 < 2 ∧ (qsIds samplePool).Nodup ∧
    (List.Perm (apply_distribution_control defaultConfig id samplePool 2)
      (distributionSpec defaultConfig samplePool 2) ∧
     (apply_distribution_control defaultConfig id samplePool 2).length =
       min 2 samplePool.length ∧
     (qsIds (apply_distribution_control defaultConfig id samplePool 2)).Nodup ∧
     (∀ r, List.Sorted scoreGe (questionPool samplePool r)) ∧
     List.Sorted scoreGe (sortByScoreDesc (distributionLeftover defaultConfig samplePool 2))) :=
  ⟨by decide, by decide,
   apply_distribution_control_spec id (fun l => List.Perm.refl l) samplePool 2
     (by decide) (by decide)⟩

lemma score_question_question_id (cfg : Config) (now : ℤ) (qid : ℕ)
    (p : Option UserPerformance) : (score_question cfg now qid p).question_id = qid := by
  cases p with
  | none => rfl
  | some p =>
      simp only [score_question]
      split
      · rfl
      · split
        · split
          · rfl
          · rfl
        · rfl

/-- C10: `select_questions` never returns the same question id twice, only
returns ids drawn from the available questions, and returns the empty list
whenever the quiz length is not positive or no questions are available. -/
theorem select_questions_invariants (cfg : Config)
    (shuffle : List QuestionScore → List QuestionScore)
    (hsh : ∀ l, List.Perm (shuffle l) l)
    (now : ℤ) (user_id course_id : ℕ) (quiz_length : ℤ)
    (user_performance : List UserPerformance) (available_questions : List ℕ) :
    (qsIds (select_questions cfg shuffle now user_id course_id quiz_length
      user_performance available_questions)).Nodup ∧
    (∀ q ∈ select_questions cfg shuffle now user_id course_id quiz_length
      user_performance available_questions, q.question_id ∈ available_questions) ∧
    (quiz_length ≤ 0 → select_questions cfg shuffle now user_id course_id quiz_length
      user_performance available_questions = []) ∧
    (available_questions = [] → select_questions cfg shuffle now user_id course_id quiz_length
      user_performance available_questions = []) := by
  by_cases hlen : quiz_length ≤ 0
  · simp [select_questions, hlen, qsIds]
  · by_cases hav : available_questions = []
    · simp [select_questions, hlen, hav, qsIds]
    · have hout : select_questions cfg shuffle now user_id course_id quiz_length
          user_performance available_questions =
          apply_distribution_control cfg shuffle
            (sortByScoreDesc (available_questions.dedup.map fun qid =>
              score_question cfg now qid (performanceLookup user_performance qid)))
            quiz_length.toNat := by
        simp [select_questions, hlen, hav]
      have hids0 : qsIds (available_questions.dedup.map fun qid =>
          score_question cfg now qid (performanceLookup user_performance qid)) =
          available_questions.dedup := by
        rw [qsIds, List.map_map]
        have hcomp : (QuestionScore.question_id ∘ fun qid =>
            score_question cfg now qid (performanceLookup user_performance qid)) = id := by
          funext qid
          exact score_question_question_id cfg now qid _
        rw [hcomp, List.map_id]
      have hnd : (qsIds (sortByScoreDesc (available_questions.dedup.map fun qid =>
          score_question cfg now qid (performanceLookup user_performance qid)))).Nodup := by
        have hperm : List.Perm
            (qsIds (sortByScoreDesc (available_questions.dedup.map fun qid =>
              score_question cfg now qid (performanceLookup user_performance qid))))
            (qsIds (available_questions.dedup.map fun qid =>
              score_question cfg now qid (performanceLookup user_performance qid))) :=
          (sortByScoreDesc_perm _).map _
        refine hperm.symm.nodup ?_
        rw [hids0]
        exact available_questions.nodup_dedup
      have he := apply_distribution_control_eq cfg shuffle
        (sortByScoreDesc (available_questions.dedup.map fun qid =>
          score_question cfg now qid (performanceLookup user_performance qid)))
        quiz_length.toNat hnd
      refine ⟨?_, ?_, fun h => absurd h hlen, fun h => absurd h hav⟩
      · rw [hout, he]
        have h1 : List.Sublist
            (qsIds ((shuffle (distributionSpec cfg
              (sortByScoreDesc (available_questions.dedup.map fun qid =>
                score_question cfg now qid (performanceLookup user_performance qid)))
              quiz_length.toNat)).take quiz_length.toNat))
            (qsIds (shuffle (distributionSpec cfg
              (sortByScoreDesc (available_questions.dedup.map fun qid =>
                score_question cfg now qid (performanceLookup user_performance qid)))
              quiz_length.toNat))) :=
          (List.take_sublist _ _).map _
        have h2 : List.Perm
            (qsIds (shuffle (distributionSpec cfg
              (sortByScoreDesc (available_questions.dedup.map fun qid =>
                score_question cfg now qid (performanceLookup user_performance qid)))
              quiz_length.toNat)))
            (qsIds (distributionSpec cfg
              (sortByScoreDesc (available_questions.dedup.map fun qid =>
                score_question cfg now qid (performanceLookup user_performance qid)))
              quiz_length.toNat)) :=
          (hsh _).map _
        exact h1.nodup (h2.symm.nodup (qsIds_distributionSpec_nodup cfg _ _ hnd))
      · intro q hq
        rw [hout, he] at hq
        have hq1 := List.take_subset _ _ hq
        have hq2 := (hsh _).mem_iff.mp hq1
        have hq3 := mem_scored_of_mem_distributionSpec cfg _ _ hq2
        have hq4 := (sortByScoreDesc_perm _).mem_iff.mp hq3
        obtain ⟨qid, hqid, rfl⟩ := List.mem_map.mp hq4
        rw [score_question_question_id]
        exact available_questions.dedup_sublist.subset hqid

/-- Witness for C10: a concrete call with a duplicated id in the available
list and the identity shuffle. -/
theorem select_questions_invariants_witness :
    (qsIds (select_questions defaultConfig id 0 1 1 2 [] [1, 2, 2, 3])).Nodup ∧
    (∀ q ∈ select_questions defaultConfig id 0 1 1 2 [] [1, 2, 2, 3],
      q.question_id ∈ [1, 2, 2, 3]) ∧
    ((2 : ℤ) ≤ 0 → select_questions defaultConfig id 0 1 1 2 [] [1, 2, 2, 3] = []) ∧
    ([1, 2, 2, 3] = ([] : List ℕ) →
      select_questions defaultConfig id 0 1 1 2 [] [1, 2, 2, 3] = []) :=
  select_questions_invariants defaultConfig id (fun l => List.Perm.refl l) 0 1 1 2 []
    [1, 2, 2, 3]
